import Mathlib

set_option linter.unusedSectionVars false

/-!
Shallow embedding of the cache2go caching engine (`cachetable.go`).

Conventions of the embedding:
* `time.Time` instants and `time.Duration` values are both modelled as `Int`
  (nanosecond counts); `now.Sub(accessedOn)` becomes `now - accessedOn`.
* The Go `map[interface{}]*CacheItem` is modelled as an association list with
  unique keys; `mapLookup`, `mapInsert` and `mapErase` model map read, map
  assignment and `delete`.
* Pointer mutation of an item (`KeepAlive`) becomes writing the updated item
  back into the table under its key.
* Callbacks are identified by numeric registration ids held in the table's
  `addedItem` / `aboutToDeleteItem` lists and the item's `aboutToExpire` list
  (in registration order); invoking a callback is modelled by emitting an
  `Event` carrying the id and the argument the Go code passes.  Operations
  return the list of events fired, in firing order.
* The `cleanupTimer` is modelled by the flag `timerArmed` (timer set and
  pending); `time.AfterFunc` arms it, `Stop` disarms it.
* The table's mutexes, the `logger` (whose `log` calls have no observable
  effect on the cache state) and the variadic `args ...interface{}` threading
  are concurrency/diagnostic artefacts: `args` is kept as a `List V`, the
  locks and logger are elided.
-/

namespace Cache2go

variable {K V A : Type} [DecidableEq K]

/-- Modelled from the spec: the `CacheItem` struct of `cacheitem.go` (not under
`src/`): key, opaque data payload, lifespan (`0` means never expires),
`createdOn` / `accessedOn` timestamps, monotonically increasing `accessCount`,
and the ordered `aboutToExpire` callback list. -/
structure CacheItem (K V : Type) where
  key : K
  data : V
  lifeSpan : Int
  createdOn : Int
  accessedOn : Int
  accessCount : Int
  aboutToExpire : List Nat
deriving DecidableEq

/-- Modelled from the spec: `NewCacheItem` (`cacheitem.go`, not under `src/`):
a fresh item with `createdOn = accessedOn = now`, `accessCount = 0` and no
expire callbacks. -/
def newCacheItem (key : K) (lifeSpan : Int) (data : V) (now : Int) : CacheItem K V :=
  { key := key, data := data, lifeSpan := lifeSpan, createdOn := now,
    accessedOn := now, accessCount := 0, aboutToExpire := [] }

/-- Modelled from the spec: `CacheItem.KeepAlive` (`cacheitem.go`, not under
`src/`): sets `accessedOn` to now and increments `accessCount`. -/
def CacheItem.keepAlive (item : CacheItem K V) (now : Int) : CacheItem K V :=
  { item with accessedOn := now, accessCount := item.accessCount + 1 }

/-- Modelled from the spec: the two error values of `errors.go` (not under
`src/`), referenced by `cachetable.go` as `ErrKeyNotFound` and
`ErrKeyNotFoundOrLoadable`. -/
inductive CacheError where
  | keyNotFound
  | keyNotFoundOrLoadable
deriving DecidableEq

deriving instance DecidableEq for Except

/-- One callback invocation, recording the registration id and the argument
the Go code passes (`addedItem` and `aboutToDeleteItem` callbacks receive the
item, `aboutToExpire` callbacks receive the key). -/
inductive Event (K V : Type) where
  | added (cb : Nat) (item : CacheItem K V)
  | aboutToDelete (cb : Nat) (item : CacheItem K V)
  | aboutToExpire (cb : Nat) (key : K)
deriving DecidableEq

/-- Association-list read, modelling `table.items[key]`. -/
def mapLookup : List (K × A) → K → Option A
  | [], _ => none
  | p :: rest, k => if p.1 = k then some p.2 else mapLookup rest k

/-- Association-list write, modelling `table.items[key] = item` (replaces the
binding when the key is present, appends otherwise). -/
def mapInsert : List (K × A) → K → A → List (K × A)
  | [], k, a => [(k, a)]
  | p :: rest, k, a => if p.1 = k then (k, a) :: rest else p :: mapInsert rest k a

/-- Association-list removal, modelling `delete(table.items, key)`. -/
def mapErase : List (K × A) → K → List (K × A)
  | [], _ => []
  | p :: rest, k => if p.1 = k then mapErase rest k else p :: mapErase rest k

/-- The `CacheTable` struct: item map, scheduler state (`cleanupTimer`
modelled by `timerArmed`, plus `cleanupInterval`), the optional `loadData`
loader, and the `addedItem` / `aboutToDeleteItem` callback registration
lists. -/
structure CacheTable (K V : Type) where
  name : String
  items : List (K × CacheItem K V)
  timerArmed : Bool
  cleanupInterval : Int
  loadData : Option (K → List V → Option (CacheItem K V))
  addedItem : List Nat
  aboutToDeleteItem : List Nat

/-- A table with no items, no schedule, no loader and no callbacks. -/
def emptyTable (K V : Type) : CacheTable K V :=
  { name := "t", items := [], timerArmed := false, cleanupInterval := 0,
    loadData := none, addedItem := [], aboutToDeleteItem := [] }

/-- `Count`: the number of stored items. -/
def Count (table : CacheTable K V) : Nat :=
  table.items.length

/-- `Exists`: presence check without loader or keep-alive. -/
def existsKey (table : CacheTable K V) (key : K) : Bool :=
  (mapLookup table.items key).isSome

/-- The body of the `for key, item := range table.items` loop of
`expirationCheck`, threading the `smallestDuration` accumulator: items with
`lifeSpan == 0` are skipped, items with `now.Sub(accessedOn) >= lifeSpan` are
deleted via the `deleteInternal` callback-firing path, and the smallest
`lifeSpan - now.Sub(accessedOn)` among the remaining items is tracked.
Returns the surviving items, the final `smallestDuration` and the fired
events. -/
def expireLoop (now : Int) (delCbs : List Nat) :
    List (K × CacheItem K V) → Int → List (K × CacheItem K V) × Int × List (Event K V)
  | [], smallest => ([], smallest, [])
  | (key, item) :: rest, smallest =>
    if item.lifeSpan = 0 then
      let r := expireLoop now delCbs rest smallest
      ((key, item) :: r.1, r.2)
    else if item.lifeSpan ≤ now - item.accessedOn then
      let evs := delCbs.map (fun c => Event.aboutToDelete c item) ++
        item.aboutToExpire.map (fun c => Event.aboutToExpire c key)
      let r := expireLoop now delCbs rest smallest
      (r.1, r.2.1, evs ++ r.2.2)
    else
      let rem := item.lifeSpan - (now - item.accessedOn)
      let smallest' := if smallest = 0 ∨ rem < smallest then rem else smallest
      let r := expireLoop now delCbs rest smallest'
      ((key, item) :: r.1, r.2)

/-- `expirationCheck`, run at time `now`: stops the pending timer, scans all
items deleting the expired ones (via the shared deletion routine, so delete
callbacks fire), stores the smallest remaining duration in
`cleanupInterval`, and rearms the timer exactly when that duration is
positive. -/
def expirationCheck (table : CacheTable K V) (now : Int) :
    CacheTable K V × List (Event K V) :=
  let r := expireLoop now table.aboutToDeleteItem table.items 0
  ({ table with
      items := r.1
      cleanupInterval := r.2.1
      timerArmed := decide (0 < r.2.1) }, r.2.2)

/-- `addInternal`: stores the item, fires every `addedItem` callback with it,
and, when the item's lifespan is positive and either no check is scheduled
(`expDur == 0`) or the item expires sooner than the scheduled check, triggers
an immediate `expirationCheck`. -/
def addInternal (table : CacheTable K V) (item : CacheItem K V) (now : Int) :
    CacheTable K V × List (Event K V) :=
  let t1 := { table with items := mapInsert table.items item.key item }
  let expDur := table.cleanupInterval
  let addEvs := table.addedItem.map (fun c => Event.added c item)
  if 0 < item.lifeSpan ∧ (expDur = 0 ∨ item.lifeSpan < expDur) then
    let r := expirationCheck t1 now
    (r.1, addEvs ++ r.2)
  else
    (t1, addEvs)

/-- `Add`: creates a fresh item and hands it to `addInternal`; returns the
created item, the new table and the fired events. -/
def Add (table : CacheTable K V) (key : K) (lifeSpan : Int) (data : V) (now : Int) :
    CacheItem K V × CacheTable K V × List (Event K V) :=
  let item := newCacheItem key lifeSpan data now
  let r := addInternal table item now
  (item, r.1, r.2)

/-- `deleteInternal`: fails with `ErrKeyNotFound` when the key is absent;
otherwise fires every table-level `aboutToDeleteItem` callback with the item,
then every item-level `aboutToExpire` callback with the key, and removes the
binding. -/
def deleteInternal (table : CacheTable K V) (key : K) :
    Except CacheError (CacheItem K V × CacheTable K V × List (Event K V)) :=
  match mapLookup table.items key with
  | none => Except.error CacheError.keyNotFound
  | some r =>
    let evs := table.aboutToDeleteItem.map (fun c => Event.aboutToDelete c r) ++
      r.aboutToExpire.map (fun c => Event.aboutToExpire c key)
    Except.ok (r, { table with items := mapErase table.items key }, evs)

/-- `Delete`: the public deletion entry point, delegating to
`deleteInternal`. -/
def Delete (table : CacheTable K V) (key : K) :
    Except CacheError (CacheItem K V × CacheTable K V × List (Event K V)) :=
  deleteInternal table key

/-- `NotFoundAdd`: returns `false` leaving the table untouched when the key is
present; otherwise creates a fresh item, adds it via `addInternal` and
returns `true`. -/
def NotFoundAdd (table : CacheTable K V) (key : K) (lifeSpan : Int) (data : V)
    (now : Int) : Bool × CacheTable K V × List (Event K V) :=
  match mapLookup table.items key with
  | some _ => (false, table, [])
  | none =>
    let item := newCacheItem key lifeSpan data now
    let r := addInternal table item now
    (true, r.1, r.2)

/-- `Value`: on a hit, keeps the item alive and returns it; on a miss with a
configured loader, returns the loader's item after inserting a fresh item
with its key/lifespan/data through the `Add` path, or fails with
`ErrKeyNotFoundOrLoadable` when the loader produces nothing; on a miss
without a loader, fails with `ErrKeyNotFound`. -/
def Value (table : CacheTable K V) (key : K) (args : List V) (now : Int) :
    Except CacheError (CacheItem K V) × CacheTable K V × List (Event K V) :=
  match mapLookup table.items key with
  | some r =>
    let r' := r.keepAlive now
    (Except.ok r', { table with items := mapInsert table.items key r' }, [])
  | none =>
    match table.loadData with
    | some loader =>
      match loader key args with
      | some item =>
        let r := Add table key item.lifeSpan item.data now
        (Except.ok item, r.2.1, r.2.2)
      | none => (Except.error CacheError.keyNotFoundOrLoadable, table, [])
    | none => (Except.error CacheError.keyNotFound, table, [])

/-- `Flush`: discards all items, zeroes `cleanupInterval` and stops the
pending timer. -/
def Flush (table : CacheTable K V) : CacheTable K V :=
  { table with items := [], cleanupInterval := 0, timerArmed := false }

/-- An insertion step of the descending sort of the `CacheItemPairList`
snapshot (the list ordering `sort.Sort` establishes under
`Less(i, j) = p[i].AccessCount > p[j].AccessCount`). -/
def pairInsert (x : K × Int) : List (K × Int) → List (K × Int)
  | [] => [x]
  | y :: ys => if y.2 ≤ x.2 then x :: y :: ys else y :: pairInsert x ys

/-- Sorting of the `(Key, AccessCount)` pair snapshot by non-increasing
`AccessCount`, modelling `sort.Sort(p)` on the `CacheItemPairList`. -/
def pairSort : List (K × Int) → List (K × Int)
  | [] => []
  | x :: xs => pairInsert x (pairSort xs)

/-- The collection loop of `MostAccessed`: walks the sorted pairs with the
counter `c`, stopping at `c >= count`, and appends the live item found for
each pair's key (silently skipping a key that is no longer in the map). -/
def collectTop (table : CacheTable K V) :
    List (K × Int) → Int → Int → List (CacheItem K V)
  | [], _, _ => []
  | v :: rest, count, c =>
    if count ≤ c then []
    else
      match mapLookup table.items v.1 with
      | some item => item :: collectTop table rest count (c + 1)
      | none => collectTop table rest count (c + 1)

/-- `MostAccessed(count)`: snapshots every `(key, accessCount)` pair, sorts
by descending access count and returns the first `count` items looked up
again from the live map. -/
def MostAccessed (table : CacheTable K V) (count : Int) : List (CacheItem K V) :=
  let p := table.items.map (fun kv => (kv.1, kv.2.accessCount))
  collectTop table (pairSort p) count 0

/-- The minimum of a list of durations, with `0` for the empty list (the
idle value of `cleanupInterval`). -/
def minRem0 : List Int → Int
  | [] => 0
  | x :: xs => xs.foldl min x

/-- One table operation, used to state state-transition properties: the
mutating public entry points plus a timer-triggered sweep. -/
inductive Op (K V : Type) where
  | add (key : K) (lifeSpan : Int) (data : V) (now : Int)
  | notFoundAdd (key : K) (lifeSpan : Int) (data : V) (now : Int)
  | delete (key : K)
  | value (key : K) (args : List V) (now : Int)
  | flush
  | sweep (now : Int)

/-- The table reached after one operation (failing operations leave the
table unchanged). -/
def applyOp (table : CacheTable K V) : Op K V → CacheTable K V
  | Op.add key ls data now => (Add table key ls data now).2.1
  | Op.notFoundAdd key ls data now => (NotFoundAdd table key ls data now).2.1
  | Op.delete key =>
    match Delete table key with
    | Except.ok r => r.2.1
    | Except.error _ => table
  | Op.value key args now => (Value table key args now).2.1
  | Op.flush => Flush table
  | Op.sweep now => (expirationCheck table now).1

/-- Remaining permitted inactivity of an item at time `now`:
`lifeSpan - now.Sub(accessedOn)`. -/
def remOf (now : Int) (p : K × CacheItem K V) : Int :=
  p.2.lifeSpan - (now - p.2.accessedOn)

/-- The sweep keeps an item exactly when its lifespan is `0` or it has been
accessed within its lifespan. -/
def keepPred (now : Int) (p : K × CacheItem K V) : Bool :=
  decide (p.2.lifeSpan = 0 ∨ now - p.2.accessedOn < p.2.lifeSpan)

/-- The sweep deletes an item exactly when its lifespan is nonzero and its
elapsed inactivity has reached its lifespan. -/
def dropPred (now : Int) (p : K × CacheItem K V) : Bool :=
  decide (p.2.lifeSpan ≠ 0 ∧ p.2.lifeSpan ≤ now - p.2.accessedOn)

/-- A nonzero-lifespan item that survives the sweep. -/
def survPred (now : Int) (p : K × CacheItem K V) : Bool :=
  decide (p.2.lifeSpan ≠ 0 ∧ now - p.2.accessedOn < p.2.lifeSpan)

/-- The events `deleteInternal` fires for one item: every table-level
`aboutToDeleteItem` callback with the item, then every item-level
`aboutToExpire` callback with the key, in registration order. -/
def delEvents (cbs : List Nat) (key : K) (item : CacheItem K V) : List (Event K V) :=
  cbs.map (fun c => Event.aboutToDelete c item) ++
    item.aboutToExpire.map (fun c => Event.aboutToExpire c key)

/-- The `smallestDuration` accumulator update performed for one item of the
sweep loop. -/
def smallestStep (now : Int) (acc : Int) (p : K × CacheItem K V) : Int :=
  if p.2.lifeSpan = 0 then acc
  else if p.2.lifeSpan ≤ now - p.2.accessedOn then acc
  else if acc = 0 ∨ p.2.lifeSpan - (now - p.2.accessedOn) < acc
    then p.2.lifeSpan - (now - p.2.accessedOn) else acc

/-- The accumulator update restricted to a surviving item's remaining
duration: replace `acc` when it is still the `0` sentinel or the new
duration is smaller. -/
def smallestUpdate (acc r : Int) : Int :=
  if acc = 0 ∨ r < acc then r else acc

/-! ### Association-list lemmas -/

theorem mapLookup_mapInsert (l : List (K × A)) (k : K) (a : A) (k' : K) :
    mapLookup (mapInsert l k a) k' = if k' = k then some a else mapLookup l k' := by
  induction l with
  | nil =>
    by_cases h : k' = k
    · subst h; simp [mapInsert, mapLookup]
    · have h2 : ¬ (k = k') := fun hh => h hh.symm
      simp [mapInsert, mapLookup, h, h2]
  | cons p rest ih =>
    by_cases hp : p.1 = k
    · by_cases h : k' = k
      · subst h; simp [mapInsert, mapLookup, hp]
      · have h2 : ¬ (k = k') := fun hh => h hh.symm
        have h3 : ¬ (p.1 = k') := by rw [hp]; exact h2
        simp [mapInsert, mapLookup, hp, h, h2, h3]
    · by_cases h : k' = k
      · subst h
        simp [mapInsert, mapLookup, hp, ih]
      · simp [mapInsert, mapLookup, hp, h, ih]

theorem mapLookup_mapErase (l : List (K × A)) (k : K) (k' : K) :
    mapLookup (mapErase l k) k' = if k' = k then none else mapLookup l k' := by
  induction l with
  | nil => simp [mapErase, mapLookup]
  | cons p rest ih =>
    by_cases hp : p.1 = k
    · by_cases h : k' = k
      · subst h; simp [mapErase, hp, ih]
      · have h2 : ¬ (k = k') := fun hh => h hh.symm
        have h3 : ¬ (p.1 = k') := by rw [hp]; exact h2
        simp [mapErase, hp, mapLookup, ih, h, h2, h3]
    · by_cases h : k' = k
      · subst h
        simp [mapErase, hp, mapLookup, ih]
      · simp [mapErase, hp, mapLookup, ih, h]

theorem mapLookup_filter_of (l : List (K × A)) (k : K) (a : A) (p : K × A → Bool)
    (hl : mapLookup l k = some a) (hp : p (k, a) = true) :
    mapLookup (l.filter p) k = some a := by
  induction l with
  | nil => simp [mapLookup] at hl
  | cons q rest ih =>
    by_cases hq : q.1 = k
    · simp only [mapLookup, if_pos hq] at hl
      have hqa : q = (k, a) := by
        cases q with
        | mk q1 q2 => cases hl; cases hq; rfl
      subst hqa
      simp [List.filter, hp, mapLookup]
    · simp only [mapLookup, if_neg hq] at hl
      cases hpq : p q with
      | true => simp [List.filter, hpq, mapLookup, hq, ih hl]
      | false => simp [List.filter, hpq, ih hl]

/-! ### Sweep-loop characterization -/

theorem expireLoop_eq (now : Int) (cbs : List Nat) (l : List (K × CacheItem K V)) (s : Int) :
    expireLoop now cbs l s =
      (l.filter (keepPred now), l.foldl (smallestStep now) s,
        (l.filter (dropPred now)).flatMap (fun p => delEvents cbs p.1 p.2)) := by
  induction l generalizing s with
  | nil => simp [expireLoop]
  | cons p rest ih =>
    obtain ⟨key, item⟩ := p
    by_cases h0 : item.lifeSpan = 0
    · have hk : keepPred now (key, item) = true := by simp [keepPred, h0]
      have hd : dropPred now (key, item) = false := by simp [dropPred, h0]
      have hs : smallestStep now s (key, item) = s := by simp [smallestStep, h0]
      simp [expireLoop, h0, ih, hk, hd, hs]
    · by_cases h1 : item.lifeSpan ≤ now - item.accessedOn
      · have hk : keepPred now (key, item) = false := by
          simp [keepPred, h0]; omega
        have hd : dropPred now (key, item) = true := by
          simp [dropPred, h0]; omega
        have hs : smallestStep now s (key, item) = s := by
          simp only [smallestStep, if_neg h0, if_pos h1]
        simp [expireLoop, h0, h1, ih, hk, hd, hs, delEvents]
      · have hk : keepPred now (key, item) = true := by
          simp [keepPred]; omega
        have hd : dropPred now (key, item) = false := by
          simp [dropPred]; omega
        have hs : smallestStep now s (key, item) =
            (if s = 0 ∨ item.lifeSpan - (now - item.accessedOn) < s
              then item.lifeSpan - (now - item.accessedOn) else s) := by
          simp only [smallestStep, if_neg h0, if_neg h1]
        simp [expireLoop, h0, h1, ih, hk, hd, hs]

theorem foldl_smallestStep_eq (now : Int) (l : List (K × CacheItem K V)) (s : Int) :
    l.foldl (smallestStep now) s =
      ((l.filter (survPred now)).map (remOf now)).foldl smallestUpdate s := by
  induction l generalizing s with
  | nil => rfl
  | cons p rest ih =>
    by_cases h0 : p.2.lifeSpan = 0
    · have hs : smallestStep now s p = s := by simp [smallestStep, h0]
      have hv : survPred now p = false := by simp [survPred, h0]
      simp [hs, hv, ih]
    · by_cases h1 : p.2.lifeSpan ≤ now - p.2.accessedOn
      · have hs : smallestStep now s p = s := by
          simp only [smallestStep, if_neg h0, if_pos h1]
        have hv : survPred now p = false := by simp [survPred, h0]; omega
        simp [hs, hv, ih]
      · have hs : smallestStep now s p = smallestUpdate s (remOf now p) := by
          simp only [smallestStep, if_neg h0, if_neg h1, smallestUpdate, remOf]
        have hv : survPred now p = true := by simp [survPred, h0]; omega
        simp [hs, hv, ih]

/-! ### Minimum lemmas -/

theorem foldl_min_le_init (xs : List Int) (a : Int) : xs.foldl min a ≤ a := by
  induction xs generalizing a with
  | nil => simp
  | cons x xs ih =>
    exact le_trans (ih (min a x)) (min_le_left a x)

theorem foldl_min_le_mem (xs : List Int) : ∀ (a x : Int), x ∈ xs → xs.foldl min a ≤ x := by
  induction xs with
  | nil => intro a x hx; cases hx
  | cons y ys ih =>
    intro a x hx
    rcases List.mem_cons.mp hx with h | h
    · subst h
      exact le_trans (foldl_min_le_init ys (min a x)) (min_le_right a x)
    · exact ih (min a y) x h

theorem foldl_min_mem (xs : List Int) : ∀ (a : Int), xs.foldl min a = a ∨ xs.foldl min a ∈ xs := by
  induction xs with
  | nil => intro a; exact Or.inl rfl
  | cons y ys ih =>
    intro a
    rcases ih (min a y) with h | h
    · rcases min_choice a y with hm | hm
      · exact Or.inl (by rw [List.foldl_cons, h, hm])
      · refine Or.inr ?_
        rw [List.foldl_cons, h, hm]
        exact List.mem_cons_self y ys
    · refine Or.inr ?_
      rw [List.foldl_cons]
      exact List.mem_cons_of_mem y h

theorem minRem0_le (xs : List Int) (x : Int) (hx : x ∈ xs) : minRem0 xs ≤ x := by
  cases xs with
  | nil => cases hx
  | cons y ys =>
    rcases List.mem_cons.mp hx with h | h
    · subst h; exact foldl_min_le_init ys x
    · exact foldl_min_le_mem ys y x h

theorem minRem0_mem (xs : List Int) (hne : xs ≠ []) : minRem0 xs ∈ xs := by
  cases xs with
  | nil => exact absurd rfl hne
  | cons y ys =>
    rcases foldl_min_mem ys y with h | h
    · rw [minRem0, h]; exact List.mem_cons_self y ys
    · rw [minRem0]; exact List.mem_cons_of_mem y h

theorem foldl_smallestUpdate_pos (xs : List Int) : ∀ (a : Int), 0 < a → (∀ x ∈ xs, 0 < x) →
    xs.foldl smallestUpdate a = xs.foldl min a := by
  induction xs with
  | nil => intro a _ _; rfl
  | cons y ys ih =>
    intro a ha hall
    have hy : 0 < y := hall y (List.mem_cons_self y ys)
    have hstep : smallestUpdate a y = min a y := by
      unfold smallestUpdate
      by_cases hlt : y < a
      · rw [if_pos (Or.inr hlt), min_eq_right (le_of_lt hlt)]
      · have hcond : ¬ (a = 0 ∨ y < a) := by
          intro hc
          rcases hc with hc | hc
          · omega
          · exact hlt hc
        rw [if_neg hcond, min_eq_left (by omega)]
    rw [List.foldl_cons, List.foldl_cons, hstep]
    exact ih (min a y) (lt_min ha hy) (fun x hx => hall x (List.mem_cons_of_mem y hx))

theorem foldl_smallestUpdate_zero (xs : List Int) (hall : ∀ x ∈ xs, 0 < x) :
    xs.foldl smallestUpdate 0 = minRem0 xs := by
  cases xs with
  | nil => rfl
  | cons y ys =>
    have hy : 0 < y := hall y (List.mem_cons_self y ys)
    have h1 : smallestUpdate 0 y = y := by simp [smallestUpdate]
    rw [List.foldl_cons, h1,
      foldl_smallestUpdate_pos ys y hy (fun x hx => hall x (List.mem_cons_of_mem y hx))]
    rfl

theorem remOf_pos_of_surv (now : Int) (p : K × CacheItem K V) (h : survPred now p = true) :
    0 < remOf now p := by
  simp only [survPred, decide_eq_true_eq] at h
  simp only [remOf]
  omega

/-! ### Sweep corollaries -/

theorem expirationCheck_items_eq (t : CacheTable K V) (now : Int) :
    ((expirationCheck t now).1).items = t.items.filter (keepPred now) := by
  simp [expirationCheck, expireLoop_eq]

theorem expirationCheck_events_eq (t : CacheTable K V) (now : Int) :
    (expirationCheck t now).2 =
      (t.items.filter (dropPred now)).flatMap (fun p => delEvents t.aboutToDeleteItem p.1 p.2) := by
  simp [expirationCheck, expireLoop_eq]

theorem expirationCheck_interval_eq (t : CacheTable K V) (now : Int) :
    ((expirationCheck t now).1).cleanupInterval =
      minRem0 ((t.items.filter (survPred now)).map (remOf now)) := by
  have hall : ∀ x ∈ (t.items.filter (survPred now)).map (remOf now), 0 < x := by
    intro x hx
    rcases List.mem_map.mp hx with ⟨p, hp, rfl⟩
    exact remOf_pos_of_surv now p (List.mem_filter.mp hp).2
  simp [expirationCheck, expireLoop_eq, foldl_smallestStep_eq,
    foldl_smallestUpdate_zero _ hall]

theorem expirationCheck_armed_iff (t : CacheTable K V) (now : Int) :
    ((expirationCheck t now).1).timerArmed = true ↔
      0 < ((expirationCheck t now).1).cleanupInterval := by
  simp [expirationCheck]

/-! ### Lookup preservation helpers -/

theorem mapLookup_expirationCheck_of_keep (t : CacheTable K V) (now : Int) (k : K)
    (it : CacheItem K V) (hl : mapLookup t.items k = some it)
    (hk : keepPred now (k, it) = true) :
    mapLookup ((expirationCheck t now).1).items k = some it := by
  rw [expirationCheck_items_eq]
  exact mapLookup_filter_of _ _ _ _ hl hk

theorem mapLookup_addInternal_new (t : CacheTable K V) (k : K) (ls : Int) (d : V)
    (now : Int) :
    mapLookup ((addInternal t (newCacheItem k ls d now) now).1).items k =
      some (newCacheItem k ls d now) := by
  have hl : mapLookup (mapInsert t.items (newCacheItem k ls d now).key
      (newCacheItem k ls d now)) k = some (newCacheItem k ls d now) := by
    rw [mapLookup_mapInsert]; simp [newCacheItem]
  by_cases hc : 0 < (newCacheItem k ls d now).lifeSpan ∧
      (t.cleanupInterval = 0 ∨ (newCacheItem k ls d now).lifeSpan < t.cleanupInterval)
  · have h1 := hc.1
    simp only [addInternal, if_pos hc]
    refine mapLookup_expirationCheck_of_keep _ now k _ hl ?_
    simp only [keepPred, decide_eq_true_eq]
    right
    have hacc : (newCacheItem k ls d now).accessedOn = now := rfl
    rw [hacc]
    omega
  · simp only [addInternal, if_neg hc]
    exact hl

theorem mapLookup_addInternal_other (t : CacheTable K V) (item' : CacheItem K V)
    (now : Int) (k : K) (it : CacheItem K V) (hl : mapLookup t.items k = some it)
    (h0 : it.lifeSpan = 0) (hne : item'.key ≠ k) :
    mapLookup ((addInternal t item' now).1).items k = some it := by
  have hl1 : mapLookup (mapInsert t.items item'.key item') k = some it := by
    rw [mapLookup_mapInsert, if_neg (fun hh => hne hh.symm), hl]
  by_cases hc : 0 < item'.lifeSpan ∧
      (t.cleanupInterval = 0 ∨ item'.lifeSpan < t.cleanupInterval)
  · simp only [addInternal, if_pos hc]
    exact mapLookup_expirationCheck_of_keep _ now k it hl1 (by simp [keepPred, h0])
  · simp only [addInternal, if_neg hc]
    exact hl1

/-! ### Claim theorems -/

/-- C1: for every key and table state, `Value` fails with
`KeyNotFoundOrNotLoadable` exactly when the key is absent, a loader is
configured and the loader returns no item; fails with `KeyNotFound` exactly
when the key is absent and no loader is configured; and succeeds on a
present key, returning the stored item (with its access metadata
refreshed). -/
theorem value_result_spec (t : CacheTable K V) (k : K) (args : List V) (now : Int) :
    ((Value t k args now).1 = Except.error CacheError.keyNotFoundOrLoadable ↔
      mapLookup t.items k = none ∧ ∃ f, t.loadData = some f ∧ f k args = none) ∧
    ((Value t k args now).1 = Except.error CacheError.keyNotFound ↔
      mapLookup t.items k = none ∧ t.loadData = none) ∧
    (∀ r, mapLookup t.items k = some r →
      (Value t k args now).1 = Except.ok (r.keepAlive now)) := by
  cases hl : mapLookup t.items k with
  | some r => simp [Value, hl]
  | none =>
    cases hd : t.loadData with
    | none => simp [Value, hl, hd]
    | some f =>
      cases hf : f k args with
      | none => simp [Value, hl, hd, hf]
      | some item => simp [Value, hl, hd, hf]

/-- C1 witness: on the empty table with no loader, `Value` fails with
`KeyNotFound`. -/
theorem value_result_spec_witness :
    (Value (emptyTable Nat Nat) 0 [] 5).1 = Except.error CacheError.keyNotFound :=
  (value_result_spec (emptyTable Nat Nat) 0 [] 5).2.1.mpr ⟨rfl, rfl⟩

/-- C2: `Delete` on an absent key fails with `KeyNotFound` and leaves the
table unchanged; on a present key it removes exactly that key and fires
every table-level about-to-delete callback and then every item-level
about-to-expire callback, each exactly once, in registration order. -/
theorem delete_spec (t : CacheTable K V) (k : K) :
    (mapLookup t.items k = none →
      Delete t k = Except.error CacheError.keyNotFound ∧
      applyOp t (Op.delete k) = t) ∧
    (∀ r, mapLookup t.items k = some r →
      Delete t k = Except.ok (r, { t with items := mapErase t.items k },
        delEvents t.aboutToDeleteItem k r) ∧
      mapLookup (mapErase t.items k) k = none ∧
      (∀ k', k' ≠ k → mapLookup (mapErase t.items k) k' = mapLookup t.items k')) := by
  constructor
  · intro hl
    have h1 : Delete t k = Except.error CacheError.keyNotFound := by
      simp [Delete, deleteInternal, hl]
    exact ⟨h1, by simp [applyOp, h1]⟩
  · intro r hl
    refine ⟨by simp [Delete, deleteInternal, hl, delEvents], ?_, ?_⟩
    · rw [mapLookup_mapErase]; simp
    · intro k' hk'
      rw [mapLookup_mapErase, if_neg hk']

/-- C2 witness: deleting the only key of a concrete one-item table empties
its binding. -/
theorem delete_spec_witness :
    mapLookup (mapErase [(0, { newCacheItem 0 0 7 0 with aboutToExpire := [3] })] 0) 0 =
      (none : Option (CacheItem Nat Nat)) :=
  ((delete_spec { emptyTable Nat Nat with
      items := [(0, { newCacheItem 0 0 7 0 with aboutToExpire := [3] })]
      aboutToDeleteItem := [1, 2] } 0).2
    { newCacheItem 0 0 7 0 with aboutToExpire := [3] } rfl).2.1

/-- C7: `NotFoundAdd` returns `true` exactly when the key is absent, in
which case a fresh item is inserted under the key; on a present key it
returns `false` and leaves the table (hence the existing item) untouched. -/
theorem notFoundAdd_spec (t : CacheTable K V) (k : K) (ls : Int) (d : V) (now : Int) :
    (∀ r, mapLookup t.items k = some r → NotFoundAdd t k ls d now = (false, t, [])) ∧
    (mapLookup t.items k = none →
      (NotFoundAdd t k ls d now).1 = true ∧
      mapLookup ((NotFoundAdd t k ls d now).2.1).items k =
        some (newCacheItem k ls d now)) := by
  constructor
  · intro r hl
    simp [NotFoundAdd, hl]
  · intro hl
    constructor
    · simp [NotFoundAdd, hl]
    · simp only [NotFoundAdd, hl]
      exact mapLookup_addInternal_new t k ls d now

/-- C7 witness: on the empty table, `NotFoundAdd` inserts and reports
`true`. -/
theorem notFoundAdd_spec_witness :
    (NotFoundAdd (emptyTable Nat Nat) 0 5 9 2).1 = true ∧
    mapLookup ((NotFoundAdd (emptyTable Nat Nat) 0 5 9 2).2.1).items 0 =
      some (newCacheItem 0 5 9 2) :=
  (notFoundAdd_spec (emptyTable Nat Nat) 0 5 9 2).2 rfl

/-- C8: `Flush` empties the item map (`Count` returns 0), zeroes the cleanup
interval and cancels the pending timer, and a subsequent sweep deletes
nothing and fires no callbacks. -/
theorem flush_spec (t : CacheTable K V) (now : Int) :
    Count (Flush t) = 0 ∧
    (Flush t).cleanupInterval = 0 ∧
    (Flush t).timerArmed = false ∧
    ((expirationCheck (Flush t) now).1).items = [] ∧
    (expirationCheck (Flush t) now).2 = [] := by
  refine ⟨rfl, rfl, rfl, ?_, ?_⟩ <;> simp [Flush, expirationCheck, expireLoop]

/-- C3 counterexample: the sweep's deletion guard is `lifeSpan != 0` followed
by `elapsed >= lifeSpan`, not `lifeSpan > 0`: an item with lifespan `-1` and
zero elapsed inactivity is deleted by a sweep although the table holds no
item with positive lifespan. -/
theorem expirationCheck_nonpositive_lifespan_cex :
    ((expirationCheck { emptyTable Nat Nat with
        items := [(0, newCacheItem 0 (-1) 0 0)] } 0).1).items = [] ∧
    (∀ p ∈ ({ emptyTable Nat Nat with
        items := [(0, newCacheItem 0 (-1) 0 0)] } : CacheTable Nat Nat).items,
      ¬ 0 < p.2.lifeSpan) := by
  decide

/-- C3 (amended): one sweep at time `now` deletes exactly the items with
nonzero lifespan whose elapsed inactivity `now - accessedOn` has reached
their lifespan, firing for each one the table-level then item-level delete
callbacks of the shared deletion routine; afterwards `cleanupInterval` is
the smallest `lifeSpan - elapsed` among the surviving nonzero-lifespan
items — `0` with the timer idle when none survives — and the timer is
armed exactly when that interval is positive. -/
theorem expirationCheck_spec (t : CacheTable K V) (now : Int) :
    ((expirationCheck t now).1).items = t.items.filter (keepPred now) ∧
    (expirationCheck t now).2 =
      (t.items.filter (dropPred now)).flatMap
        (fun p => delEvents t.aboutToDeleteItem p.1 p.2) ∧
    ((expirationCheck t now).1).cleanupInterval =
      minRem0 ((t.items.filter (survPred now)).map (remOf now)) ∧
    (((expirationCheck t now).1).timerArmed = true ↔
      0 < ((expirationCheck t now).1).cleanupInterval) ∧
    (t.items.filter (survPred now) = [] →
      ((expirationCheck t now).1).cleanupInterval = 0 ∧
      ((expirationCheck t now).1).timerArmed = false) := by
  refine ⟨expirationCheck_items_eq t now, expirationCheck_events_eq t now,
    expirationCheck_interval_eq t now, expirationCheck_armed_iff t now, ?_⟩
  intro h
  have h1 : ((expirationCheck t now).1).cleanupInterval = 0 := by
    rw [expirationCheck_interval_eq, h]
    rfl
  refine ⟨h1, ?_⟩
  cases harm : ((expirationCheck t now).1).timerArmed with
  | false => rfl
  | true =>
    have h2 := (expirationCheck_armed_iff t now).mp harm
    omega

/-- C3 witness: on the empty table the sweep leaves the scheduler idle. -/
theorem expirationCheck_spec_witness :
    ((expirationCheck (emptyTable Nat Nat) 3).1).cleanupInterval = 0 ∧
    ((expirationCheck (emptyTable Nat Nat) 3).1).timerArmed = false :=
  (expirationCheck_spec (emptyTable Nat Nat) 3).2.2.2.2 rfl

/-- A reachable table used to refute C5: add key 0 with lifespan 5 at time 0
(the triggered sweep arms the timer for 5), add key 1 with lifespan 10 at
time 0 (no re-check, since 10 is not smaller than the scheduled 5), then
delete key 0. -/
def staleTable : CacheTable Nat Nat :=
  applyOp (Add ((Add (emptyTable Nat Nat) 0 5 100 0).2.1) 1 10 200 0).2.1
    (Op.delete 0)

/-- C5 counterexample: `Delete` never recomputes `cleanupInterval`, so in the
reachable state `staleTable` the timer is armed with interval 5 while the
remaining lifespan (at the arming time 0) of every nonzero-lifespan item is
10: the armed interval is not the minimum remaining lifespan. -/
theorem armed_interval_stale_after_delete_cex :
    staleTable.cleanupInterval = 5 ∧
    staleTable.timerArmed = true ∧
    staleTable.items = [(1, newCacheItem 1 10 200 0)] ∧
    (∀ p ∈ staleTable.items, p.2.lifeSpan ≠ 0 → remOf 0 p = 10) ∧
    (5 : Int) ≠ 10 := by
  decide

/-- C5 (amended): immediately after a sweep with the timer armed, the armed
interval equals the minimum remaining lifespan `lifeSpan - (now -
accessedOn)` over the surviving items with nonzero lifespan (it is a lower
bound and is attained); operations that bypass the sweep — such as `Delete`
of the minimal item — do not re-establish this invariant. -/
theorem sweep_establishes_min_interval (t : CacheTable K V) (now : Int)
    (h : 0 < ((expirationCheck t now).1).cleanupInterval) :
    (∀ p ∈ ((expirationCheck t now).1).items, p.2.lifeSpan ≠ 0 →
      ((expirationCheck t now).1).cleanupInterval ≤ remOf now p) ∧
    (∃ p ∈ ((expirationCheck t now).1).items, p.2.lifeSpan ≠ 0 ∧
      ((expirationCheck t now).1).cleanupInterval = remOf now p) ∧
    ((expirationCheck t now).1).timerArmed = true := by
  have hint := expirationCheck_interval_eq t now
  refine ⟨?_, ?_, (expirationCheck_armed_iff t now).mpr h⟩
  · intro p hp hne
    rw [expirationCheck_items_eq] at hp
    obtain ⟨hpmem, hpk⟩ := List.mem_filter.mp hp
    have hsurv : survPred now p = true := by
      simp only [keepPred, decide_eq_true_eq] at hpk
      simp only [survPred, decide_eq_true_eq]
      exact ⟨hne, by rcases hpk with h0 | h0; exact absurd h0 hne; exact h0⟩
    have hmem : remOf now p ∈ (t.items.filter (survPred now)).map (remOf now) :=
      List.mem_map_of_mem _ (List.mem_filter.mpr ⟨hpmem, hsurv⟩)
    rw [hint]
    exact minRem0_le _ _ hmem
  · have hne : (t.items.filter (survPred now)).map (remOf now) ≠ [] := by
      intro hnil
      rw [hint, hnil] at h
      exact absurd h (by decide)
    have hmem := minRem0_mem _ hne
    rcases List.mem_map.mp hmem with ⟨p, hp, heq⟩
    obtain ⟨hpmem, hpsurv⟩ := List.mem_filter.mp hp
    have hks : keepPred now p = true := by
      simp only [survPred, decide_eq_true_eq] at hpsurv
      simp only [keepPred, decide_eq_true_eq]
      exact Or.inr hpsurv.2
    refine ⟨p, ?_, ?_, ?_⟩
    · rw [expirationCheck_items_eq]
      exact List.mem_filter.mpr ⟨hpmem, hks⟩
    · simp only [survPred, decide_eq_true_eq] at hpsurv
      exact hpsurv.1
    · rw [hint, heq]

/-- C5 witness: after adding one item with lifespan 5 at time 0, the sweep
arms the timer. -/
theorem sweep_establishes_min_interval_witness :
    ((expirationCheck { emptyTable Nat Nat with
        items := [(0, newCacheItem 0 5 9 0)] } 0).1).timerArmed = true :=
  (sweep_establishes_min_interval
    { emptyTable Nat Nat with items := [(0, newCacheItem 0 5 9 0)] } 0
    (by decide)).2.2

/-- C4: an item with lifespan 0 is never deleted by an expiration sweep — the
sweep leaves its binding completely untouched — and its key disappears from
the table only through an explicit `Delete` of that key or a `Flush`. -/
theorem immortal_item_preservation (t : CacheTable K V) (k : K) (it : CacheItem K V)
    (hl : mapLookup t.items k = some it) (h0 : it.lifeSpan = 0) :
    (∀ now, mapLookup ((expirationCheck t now).1).items k = some it) ∧
    (∀ op, mapLookup (applyOp t op).items k = none →
      op = Op.delete k ∨ op = Op.flush) := by
  have hkeep : ∀ now : Int, keepPred now (k, it) = true := fun now => by
    simp [keepPred, h0]
  constructor
  · intro now
    exact mapLookup_expirationCheck_of_keep t now k it hl (hkeep now)
  · intro op hnone
    cases op with
    | add k' ls d now =>
      exfalso
      by_cases he : k' = k
      · subst he
        have hx := mapLookup_addInternal_new t k' ls d now
        simp only [applyOp, Add] at hnone
        rw [hnone] at hx
        cases hx
      · have hx := mapLookup_addInternal_other t (newCacheItem k' ls d now) now k it
          hl h0 he
        simp only [applyOp, Add] at hnone
        rw [hnone] at hx
        cases hx
    | notFoundAdd k' ls d now =>
      exfalso
      cases hlk : mapLookup t.items k' with
      | some r =>
        simp only [applyOp, NotFoundAdd, hlk] at hnone
        rw [hl] at hnone
        cases hnone
      | none =>
        by_cases he : k' = k
        · subst he
          rw [hlk] at hl
          cases hl
        · have hx := mapLookup_addInternal_other t (newCacheItem k' ls d now) now k it
            hl h0 he
          simp only [applyOp, NotFoundAdd, hlk] at hnone
          rw [hnone] at hx
          cases hx
    | delete k' =>
      by_cases he : k' = k
      · subst he
        exact Or.inl rfl
      · exfalso
        cases hlk : mapLookup t.items k' with
        | none =>
          simp only [applyOp, Delete, deleteInternal, hlk] at hnone
          rw [hl] at hnone
          cases hnone
        | some r =>
          simp only [applyOp, Delete, deleteInternal, hlk] at hnone
          rw [mapLookup_mapErase, if_neg (fun hh => he hh.symm), hl] at hnone
          cases hnone
    | value k' args now =>
      exfalso
      cases hlk : mapLookup t.items k' with
      | some r =>
        simp only [applyOp, Value, hlk] at hnone
        rw [mapLookup_mapInsert] at hnone
        by_cases he : k = k'
        · rw [if_pos he] at hnone
          cases hnone
        · rw [if_neg he, hl] at hnone
          cases hnone
      | none =>
        have he : k' ≠ k := by
          intro hh
          subst hh
          rw [hlk] at hl
          cases hl
        cases hd : t.loadData with
        | none =>
          simp only [applyOp, Value, hlk, hd] at hnone
          rw [hl] at hnone
          cases hnone
        | some f =>
          cases hf : f k' args with
          | none =>
            simp only [applyOp, Value, hlk, hd, hf] at hnone
            rw [hl] at hnone
            cases hnone
          | some item =>
            have hx := mapLookup_addInternal_other t
              (newCacheItem k' item.lifeSpan item.data now) now k it hl h0 he
            simp only [applyOp, Value, hlk, hd, hf, Add] at hnone
            rw [hnone] at hx
            cases hx
    | flush => exact Or.inr rfl
    | sweep now =>
      exfalso
      have hx := mapLookup_expirationCheck_of_keep t now k it hl (hkeep now)
      simp only [applyOp] at hnone
      rw [hnone] at hx
      cases hx

/-- C4 witness: a sweep at time 9 leaves a lifespan-0 item added at time 0
bound unchanged. -/
theorem immortal_item_preservation_witness :
    mapLookup ((expirationCheck { emptyTable Nat Nat with
        items := [(0, newCacheItem 0 0 5 0)] } 9).1).items 0 =
      some (newCacheItem 0 0 5 0) :=
  (immortal_item_preservation { emptyTable Nat Nat with
      items := [(0, newCacheItem 0 0 5 0)] } 0 (newCacheItem 0 0 5 0) rfl rfl).1 9

/-- A table whose loader produces, for any missing key, an item with
lifespan 0 and data 99 created at time 0. -/
def loaderTable : CacheTable Nat Nat :=
  { emptyTable Nat Nat with
      loadData := some (fun key _ => some (newCacheItem key 0 99 0)) }

/-- C6 counterexample: a successful loader-served `Value` does not increase
any access counter: on the absent key 5 it succeeds, yet the item it stores
has `accessCount = 0` (the stored counter is not incremented by the call,
contradicting the claim's quantification over loader-served calls). -/
theorem loader_value_no_increment_cex :
    (Value loaderTable 5 [] 7).1 = Except.ok (newCacheItem 5 0 99 0) ∧
    mapLookup loaderTable.items 5 = none ∧
    ((Value loaderTable 5 [] 7).2.1).items.map (fun p => (p.1, p.2.accessCount)) =
      [(5, 0)] := by
  decide

/-- C6 (amended): after `Add(key, lifespan, data)` a subsequent `Value(key)`
succeeds with an item whose data equals `data`, and every successful
cache-served (hit) `Value` call increments the stored item's `accessCount`
by exactly 1; loader-served successful calls are the exception: they store a
fresh item with `accessCount 0` and increment nothing. -/
theorem add_value_accessCount_spec (t : CacheTable K V) (k : K) (ls : Int) (d : V)
    (now now' : Int) :
    ((Value ((Add t k ls d now).2.1) k [] now').1 =
      Except.ok ((newCacheItem k ls d now).keepAlive now') ∧
     ((newCacheItem k ls d now).keepAlive now').data = d ∧
     ((newCacheItem k ls d now).keepAlive now').accessCount = 1) ∧
    (∀ r, mapLookup t.items k = some r →
      (Value t k [] now').1 = Except.ok (r.keepAlive now') ∧
      mapLookup ((Value t k [] now').2.1).items k = some (r.keepAlive now') ∧
      (r.keepAlive now').accessCount = r.accessCount + 1) := by
  constructor
  · have hadd : mapLookup ((Add t k ls d now).2.1).items k =
        some (newCacheItem k ls d now) := by
      simp only [Add]
      exact mapLookup_addInternal_new t k ls d now
    refine ⟨?_, rfl, ?_⟩
    · simp [Value, hadd]
    · simp [newCacheItem, CacheItem.keepAlive]
  · intro r hl
    refine ⟨by simp [Value, hl], ?_, rfl⟩
    simp only [Value, hl]
    rw [mapLookup_mapInsert]
    simp

/-- C6 witness: a hit `Value` on a stored item returns it refreshed. -/
theorem add_value_accessCount_spec_witness :
    (Value { emptyTable Nat Nat with items := [(0, newCacheItem 0 0 9 0)] } 0 [] 4).1 =
      Except.ok ((newCacheItem 0 0 9 0).keepAlive 4) :=
  ((add_value_accessCount_spec { emptyTable Nat Nat with
      items := [(0, newCacheItem 0 0 9 0)] } 0 0 9 0 4).2 (newCacheItem 0 0 9 0) rfl).1

/-- C10: a successful loader-served `Value` stores under the requested key a
freshly created item carrying the loader item's lifespan and data, with
`accessCount 0` and both timestamps set to `now`, while returning to the
caller the loader's own item unchanged; neither item has its access
metadata refreshed by the call. -/
theorem value_loader_fresh_item_spec (t : CacheTable K V) (k : K) (args : List V)
    (now : Int) (f : K → List V → Option (CacheItem K V)) (item : CacheItem K V)
    (hld : t.loadData = some f) (habs : mapLookup t.items k = none)
    (hf : f k args = some item) :
    (Value t k args now).1 = Except.ok item ∧
    mapLookup ((Value t k args now).2.1).items k =
      some (newCacheItem k item.lifeSpan item.data now) ∧
    (newCacheItem k item.lifeSpan item.data now).accessCount = 0 ∧
    (newCacheItem k item.lifeSpan item.data now).createdOn = now ∧
    (newCacheItem k item.lifeSpan item.data now).accessedOn = now := by
  refine ⟨?_, ?_, rfl, rfl, rfl⟩
  · simp [Value, habs, hld, hf]
  · simp only [Value, habs, hld, hf, Add]
    exact mapLookup_addInternal_new t k item.lifeSpan item.data now

/-- C10 witness: with the concrete loader of `loaderTable`, `Value` on the
absent key 5 at time 7 returns the loader's item (created at time 0). -/
theorem value_loader_fresh_item_spec_witness :
    (Value loaderTable 5 [] 7).1 = Except.ok (newCacheItem 5 0 99 0) ∧
    mapLookup ((Value loaderTable 5 [] 7).2.1).items 5 =
      some (newCacheItem 5 0 99 7) := by
  have h := value_loader_fresh_item_spec loaderTable 5 [] 7
    (fun key _ => some (newCacheItem key 0 99 0)) (newCacheItem 5 0 99 0) rfl rfl rfl
  exact ⟨h.1, h.2.1⟩

/-! ### Sorting lemmas for MostAccessed -/

theorem pairInsert_perm (x : K × Int) (l : List (K × Int)) :
    (pairInsert x l).Perm (x :: l) := by
  induction l with
  | nil => exact List.Perm.refl _
  | cons y ys ih =>
    by_cases h : y.2 ≤ x.2
    · simp [pairInsert, h]
    · simp only [pairInsert, if_neg h]
      exact List.Perm.trans (List.Perm.cons y ih) (List.Perm.swap x y ys)

theorem pairSort_perm (l : List (K × Int)) : (pairSort l).Perm l := by
  induction l with
  | nil => exact List.Perm.refl _
  | cons x xs ih =>
    exact List.Perm.trans (pairInsert_perm x (pairSort xs)) (List.Perm.cons x ih)

theorem pairwise_pairInsert (x : K × Int) (l : List (K × Int))
    (h : List.Pairwise (fun a b : K × Int => b.2 ≤ a.2) l) :
    List.Pairwise (fun a b : K × Int => b.2 ≤ a.2) (pairInsert x l) := by
  induction l with
  | nil => simp [pairInsert]
  | cons y ys ih =>
    rcases List.pairwise_cons.mp h with ⟨hy, hys⟩
    by_cases hle : y.2 ≤ x.2
    · simp only [pairInsert, if_pos hle]
      refine List.pairwise_cons.mpr ⟨?_, h⟩
      intro b hb
      rcases List.mem_cons.mp hb with rfl | hb'
      · exact hle
      · exact le_trans (hy b hb') hle
    · simp only [pairInsert, if_neg hle]
      refine List.pairwise_cons.mpr ⟨?_, ih hys⟩
      intro b hb
      have hb2 : b ∈ x :: ys := (pairInsert_perm x ys).mem_iff.mp hb
      rcases List.mem_cons.mp hb2 with rfl | hb2'
      · omega
      · exact hy b hb2'

theorem pairSort_pairwise (l : List (K × Int)) :
    List.Pairwise (fun a b : K × Int => b.2 ≤ a.2) (pairSort l) := by
  induction l with
  | nil => simp [pairSort]
  | cons x xs ih => exact pairwise_pairInsert x (pairSort xs) ih

theorem collectTop_eq (t : CacheTable K V) (l : List (K × Int)) :
    ∀ (count c : Int), collectTop t l count c =
      (l.take (count - c).toNat).filterMap (fun v => mapLookup t.items v.1) := by
  induction l with
  | nil => intro count c; simp [collectTop]
  | cons v rest ih =>
    intro count c
    by_cases h : count ≤ c
    · have h0 : (count - c).toNat = 0 := by omega
      simp [collectTop, h, h0]
    · have h1 : (count - c).toNat = (count - (c + 1)).toNat + 1 := by omega
      rw [h1]
      cases hlk : mapLookup t.items v.1 with
      | some item => simp [collectTop, h, hlk, ih]
      | none => simp [collectTop, h, hlk, ih]

theorem mapLookup_self_of_nodup (l : List (K × A)) (hnd : (l.map Prod.fst).Nodup) :
    ∀ kv ∈ l, mapLookup l kv.1 = some kv.2 := by
  induction l with
  | nil => intro kv hkv; cases hkv
  | cons p rest ih =>
    have hnd2 : (p.1 :: rest.map Prod.fst).Nodup := by
      rw [List.map_cons] at hnd
      exact hnd
    have hnd' := List.nodup_cons.mp hnd2
    intro kv hkv
    rcases List.mem_cons.mp hkv with rfl | hkv'
    · simp [mapLookup]
    · have hne : p.1 ≠ kv.1 := by
        intro hh
        exact hnd'.1 (hh ▸ List.mem_map_of_mem Prod.fst hkv')
      simp only [mapLookup, if_neg hne]
      exact ih hnd'.2 kv hkv'

theorem filterMap_eq_map_of_forall {α β : Type} (f : α → Option β) (g : α → β)
    (l : List α) (h : ∀ a ∈ l, f a = some (g a)) : l.filterMap f = l.map g := by
  induction l with
  | nil => rfl
  | cons x xs ih =>
    simp [List.filterMap_cons, h x (List.mem_cons_self x xs),
      ih (fun a ha => h a (List.mem_cons_of_mem x ha))]

theorem mostAccessed_eq (t : CacheTable K V) (n : Int) :
    MostAccessed t n =
      ((pairSort (t.items.map (fun kv => (kv.1, kv.2.accessCount)))).take n.toNat).filterMap
        (fun v => mapLookup t.items v.1) := by
  have h := collectTop_eq t
    (pairSort (t.items.map (fun kv => (kv.1, kv.2.accessCount)))) n 0
  simpa [MostAccessed] using h

/-- C9: on a table with unique keys (every Go map state), `MostAccessed n`
returns at most `n` items ordered by non-increasing access count; for
`n ≤ 0` it returns the empty list, and whenever `n` is at least the number
of stored items it returns all of them (as a permutation of the item map's
values). -/
theorem mostAccessed_spec (t : CacheTable K V) (n : Int)
    (hnd : (t.items.map Prod.fst).Nodup) :
    (MostAccessed t n).length ≤ n.toNat ∧
    List.Pairwise (fun a b : CacheItem K V => b.accessCount ≤ a.accessCount)
      (MostAccessed t n) ∧
    (n ≤ 0 → MostAccessed t n = []) ∧
    ((t.items.length : Int) ≤ n → (MostAccessed t n).Perm (t.items.map Prod.snd)) := by
  have hlk : ∀ kv ∈ t.items, mapLookup t.items kv.1 = some kv.2 :=
    mapLookup_self_of_nodup t.items hnd
  have hMA := mostAccessed_eq t n
  have hsome : ∀ v ∈ pairSort (t.items.map (fun kv => (kv.1, kv.2.accessCount))),
      ∃ it, mapLookup t.items v.1 = some it ∧ it.accessCount = v.2 := by
    intro v hv
    have hvp : v ∈ t.items.map (fun kv => (kv.1, kv.2.accessCount)) :=
      (pairSort_perm _).mem_iff.mp hv
    rcases List.mem_map.mp hvp with ⟨kv, hkv, rfl⟩
    exact ⟨kv.2, hlk kv hkv, rfl⟩
  refine ⟨?_, ?_, ?_, ?_⟩
  · rw [hMA]
    refine le_trans (List.length_filterMap_le _ _) ?_
    rw [List.length_take]
    exact min_le_left _ _
  · rw [hMA, List.pairwise_filterMap]
    have hsorted : List.Pairwise (fun a b : K × Int => b.2 ≤ a.2)
        ((pairSort (t.items.map (fun kv => (kv.1, kv.2.accessCount)))).take n.toNat) :=
      (pairSort_pairwise _).sublist (List.take_sublist _ _)
    refine hsorted.imp_of_mem ?_
    intro a b ha hb hab x hx x' hx'
    have hamem := (List.take_sublist _ _).subset ha
    have hbmem := (List.take_sublist _ _).subset hb
    rcases hsome a hamem with ⟨it, hit, hcnt⟩
    rcases hsome b hbmem with ⟨it', hit', hcnt'⟩
    rw [hit] at hx
    rw [hit'] at hx'
    have hx2 : it = x := by simpa using hx
    have hx2' : it' = x' := by simpa using hx'
    subst hx2
    subst hx2'
    rw [hcnt, hcnt']
    exact hab
  · intro hn
    rw [hMA]
    have h0 : n.toNat = 0 := by omega
    rw [h0]
    rfl
  · intro hn
    rw [hMA]
    have hlenp : (pairSort (t.items.map (fun kv => (kv.1, kv.2.accessCount)))).length =
        t.items.length := by
      rw [(pairSort_perm _).length_eq, List.length_map]
    have htake : (pairSort (t.items.map (fun kv => (kv.1, kv.2.accessCount)))).take n.toNat =
        pairSort (t.items.map (fun kv => (kv.1, kv.2.accessCount))) := by
      apply List.take_of_length_le
      rw [hlenp]
      omega
    rw [htake]
    have h2 : (t.items.map (fun kv => (kv.1, kv.2.accessCount))).filterMap
        (fun v => mapLookup t.items v.1) = t.items.map Prod.snd := by
      rw [List.filterMap_map]
      exact filterMap_eq_map_of_forall _ _ _ (fun kv hkv => hlk kv hkv)
    exact h2 ▸ (pairSort_perm _).filterMap _

/-- C9 witness: on a concrete three-item table with distinct keys,
`MostAccessed 2` returns at most two items. -/
theorem mostAccessed_spec_witness :
    (MostAccessed { emptyTable Nat Nat with
        items := [(1, { newCacheItem 1 0 10 0 with accessCount := 3 }),
          (2, { newCacheItem 2 0 20 0 with accessCount := 7 }),
          (3, { newCacheItem 3 0 30 0 with accessCount := 5 })] } 2).length ≤
      (2 : Int).toNat :=
  (mostAccessed_spec { emptyTable Nat Nat with
      items := [(1, { newCacheItem 1 0 10 0 with accessCount := 3 }),
        (2, { newCacheItem 2 0 20 0 with accessCount := 7 }),
        (3, { newCacheItem 3 0 30 0 with accessCount := 5 })] } 2 (by decide)).1

end Cache2go
